import Mathlib

/-!
# Verification of the whiteboard clustering / embedding-index pipeline

A shallow embedding of the core logic of the `arkeith` whiteboard
application: the spatial clustering of text notes, the synchronization of
the persisted embedding index, the change observer, the embedding retry
gateway, the chat relay endpoint, the median focal-point computation, and
the FIFO indexing queue.

Numbers: the JS code works with IEEE doubles; coordinates are modelled as
rationals (`ℚ`), and the strict comparison `Math.sqrt d < 200` is modelled
as `d < 200 ^ 2`, which is equivalent over the reals since both sides are
nonnegative.  Strings: JS `String.prototype.trim` is modelled character by
character.  Generated entry ids (`cluster-${Date.now()}-${Math.random()}`,
globally unique in the source) are modelled as consecutive naturals drawn
from a counter.
-/

namespace Arkeith

/-- A 2-D point in page space, modelling the tldraw `Vec` values used by
the pipeline. -/
structure Point where
  x : ℚ
  y : ℚ
deriving DecidableEq, Repr, Inhabited

/-- Squared Euclidean distance between two points.  The source's
`calculateDistance` returns `Math.sqrt((p2.x-p1.x)^2 + (p2.y-p1.y)^2)`;
every use compares it against the constant threshold, so we keep the
square and compare against the squared threshold. -/
def calculateDistanceSq (p1 p2 : Point) : ℚ :=
  (p2.x - p1.x) ^ 2 + (p2.y - p1.y) ^ 2

/-- `const CLUSTER_THRESHOLD = 200`. -/
def CLUSTER_THRESHOLD : ℚ := 200

/-- `calculateDistance(p1, p2) < CLUSTER_THRESHOLD`, stated on squares. -/
def withinThreshold (p1 p2 : Point) : Prop :=
  calculateDistanceSq p1 p2 < CLUSTER_THRESHOLD ^ 2

instance (p1 p2 : Point) : Decidable (withinThreshold p1 p2) := by
  unfold withinThreshold; infer_instance

/-- One text note extracted from the canvas: shape id, raw text, and the
page-space center of its bounding box (the `{ id, text, center }` records
built at the top of `updateVectorIndex`). -/
structure Note where
  id : String
  text : String
  center : Point
deriving DecidableEq, Repr, Inhabited

/-- A cluster under construction: member notes in join order plus the
running centroid (the `{ shapes, center }` accumulator records). -/
structure Cluster where
  shapes : List Note
  center : Point
deriving DecidableEq, Repr, Inhabited

/-- Unweighted mean of the member centers, per axis:
`shapes.reduce((sum, s) => sum + s.center.x, 0) / shapes.length`. -/
def centroid (ms : List Note) : Point :=
  { x := (ms.map fun s => s.center.x).sum / (ms.length : ℚ)
    y := (ms.map fun s => s.center.y).sum / (ms.length : ℚ) }

/-- Append a note to a cluster and recompute the centroid as the mean of
all member centers. -/
def addNote (c : Cluster) (n : Note) : Cluster :=
  { shapes := c.shapes ++ [n], center := centroid (c.shapes ++ [n]) }

/-- Open a fresh singleton cluster at the note's center
(`acc.push({ shapes: [shape], center: shape.center })`). -/
def mkSingleton (n : Note) : Cluster :=
  { shapes := [n], center := n.center }

/-- Insert one note into the open cluster list: scan the clusters in
creation order, join the first one whose centroid is within the threshold
of the note's center, otherwise append a new singleton cluster.  This is
the body of the `shapes.reduce` in `updateVectorIndex` (`acc.find` + push)
and of the clustering loop in `processQueue`. -/
def insertNote : List Cluster → Note → List Cluster
  | [], n => [mkSingleton n]
  | c :: cs, n =>
    if withinThreshold n.center c.center then addNote c n :: cs
    else c :: insertNote cs n

/-- Greedy single-pass clustering of a snapshot's notes, in snapshot
order: `shapes.reduce(..., [])`. -/
def buildClusters (notes : List Note) : List Cluster :=
  notes.foldl insertNote []

/-- Character-level model of JS `String.prototype.trim`: drop leading and
trailing whitespace.  (Lean's own `String.trim` is extensionally the same
but does not reduce on literals, so we define it on the character list.) -/
def trimText (s : String) : String :=
  ⟨((s.data.dropWhile Char.isWhitespace).reverse.dropWhile Char.isWhitespace).reverse⟩

/-- The cluster's combined text:
`cluster.shapes.map(s => s.text.trim()).filter(Boolean).join(' ')`. -/
def combinedText (c : Cluster) : String :=
  String.intercalate " " ((c.shapes.map fun s => trimText s.text).filter fun t => t ≠ "")

/- ### Basic facts about clustering -/

/-- The centroid of a singleton list is the sole member's center. -/
theorem centroid_singleton (n : Note) : centroid [n] = n.center := by
  simp [centroid]

/-- A property preserved by `insertNote` for every cluster it outputs:
being nonempty with the centroid equal to the mean of member centers. -/
def GoodCluster (c : Cluster) : Prop :=
  c.shapes ≠ [] ∧ c.center = centroid c.shapes

theorem goodCluster_insertNote (cs : List Cluster) (n : Note)
    (h : ∀ c ∈ cs, GoodCluster c) : ∀ c ∈ insertNote cs n, GoodCluster c := by
  induction cs with
  | nil =>
    intro c hc
    simp only [insertNote] at hc
    rcases List.mem_singleton.mp hc with rfl
    exact ⟨by simp [mkSingleton], by simp [mkSingleton, centroid_singleton]⟩
  | cons c0 cs ih =>
    intro c hc
    simp only [insertNote] at hc
    by_cases hw : withinThreshold n.center c0.center
    · rw [if_pos hw] at hc
      rcases List.mem_cons.mp hc with rfl | hmem
      · exact ⟨by simp [addNote], by simp [addNote]⟩
      · exact h c (List.mem_cons_of_mem _ hmem)
    · rw [if_neg hw] at hc
      rcases List.mem_cons.mp hc with rfl | hmem
      · exact h c (List.mem_cons_self _ _)
      · exact ih (fun c' hc' => h c' (List.mem_cons_of_mem _ hc')) c hmem

theorem goodCluster_foldl (notes : List Note) (acc : List Cluster)
    (h : ∀ c ∈ acc, GoodCluster c) :
    ∀ c ∈ notes.foldl insertNote acc, GoodCluster c := by
  induction notes generalizing acc with
  | nil => simpa using h
  | cons n ns ih =>
    simpa using ih (insertNote acc n) (goodCluster_insertNote acc n h)

/-- Every cluster built by `buildClusters` is nonempty and carries the
mean of its member centers as its centroid. -/
theorem goodCluster_buildClusters (notes : List Note) :
    ∀ c ∈ buildClusters notes, GoodCluster c :=
  goodCluster_foldl notes [] (by simp)

/-- Inserting a note adds exactly that note to the flattened member list,
up to permutation. -/
theorem insertNote_flat_perm (cs : List Cluster) (n : Note) :
    ((insertNote cs n).flatMap fun c => c.shapes).Perm
      ((cs.flatMap fun c => c.shapes) ++ [n]) := by
  induction cs with
  | nil => simp [insertNote, mkSingleton]
  | cons c0 cs ih =>
    by_cases hw : withinThreshold n.center c0.center
    · simp only [insertNote, if_pos hw, List.flatMap_cons, addNote]
      rw [List.append_assoc, List.append_assoc]
      exact List.perm_append_comm.append_left c0.shapes
    · simp only [insertNote, if_neg hw, List.flatMap_cons]
      rw [List.append_assoc]
      exact ih.append_left c0.shapes

theorem foldl_flat_perm (notes : List Note) (acc : List Cluster) :
    ((notes.foldl insertNote acc).flatMap fun c => c.shapes).Perm
      ((acc.flatMap fun c => c.shapes) ++ notes) := by
  induction notes generalizing acc with
  | nil => simp
  | cons n ns ih =>
    have h1 := ih (insertNote acc n)
    have h2 := (insertNote_flat_perm acc n).append_right ns
    simpa [List.append_assoc] using h1.trans h2

/-- The members of the built clusters are a permutation of the input
notes: no note is dropped or duplicated by clustering. -/
theorem buildClusters_flat_perm (notes : List Note) :
    ((buildClusters notes).flatMap fun c => c.shapes).Perm notes := by
  simpa using foldl_flat_perm notes []

/-- `insertNote` joins exactly the first open cluster within the
threshold (in cluster-creation order), and opens a new singleton cluster
when there is none. -/
theorem insertNote_first_match (cs : List Cluster) (n : Note) :
    insertNote cs n =
      match cs.findIdx? fun c => decide (withinThreshold n.center c.center) with
      | some j => List.modify (fun c => addNote c n) j cs
      | none => cs ++ [mkSingleton n] := by
  induction cs with
  | nil => simp [insertNote]
  | cons c0 cs ih =>
    by_cases hw : withinThreshold n.center c0.center
    · simp [insertNote, if_pos hw, List.findIdx?_cons, hw, List.modify_zero_cons]
    · simp only [insertNote, if_neg hw, List.findIdx?_cons, decide_eq_true_eq, hw,
        if_false, List.findIdx?_succ]
      rw [ih]
      cases hfi : cs.findIdx? fun c => decide (withinThreshold n.center c.center) with
      | none => simp [hfi]
      | some j => simp [hfi, List.modify_succ_cons]

/- ### The index synchronizer (`updateVectorIndex`) -/

/-- A persisted index entry (`ObjectItem` in the source): a generated
unique id, the cluster's combined text as `name`, the embedding vector,
and the representative shape's id.  Ids are modelled as naturals drawn
from a fresh counter. -/
structure ObjectItem where
  id : Nat
  name : String
  embedding : List Int
  shapeId : String
deriving DecidableEq, Repr

/-- `new Map(existingObjects.map(obj => [obj.shapeId, obj])).get(sid)`:
a JS `Map` keeps the last insertion for a duplicated key, so this is the
last entry of `existing` whose `shapeId` is `sid`. -/
def lookupShape (existing : List ObjectItem) (sid : String) : Option ObjectItem :=
  (existing.filter fun o => o.shapeId = sid).getLast?

/-- One iteration of the `for (const cluster of clusters)` loop in
`updateVectorIndex`: skip clusters whose combined text is empty;
otherwise remove every stored entry found (via the shapeId map snapshot
taken at pass start) for any member of the cluster, then, if the
embedding call succeeds, append a fresh entry for the cluster keyed by
its first member.  A failed embedding is caught: the removals stand and
no entry is added.  State is the live index plus the fresh-id counter. -/
def syncCluster (emb : String → Option (List Int)) (existing : List ObjectItem)
    (st : List ObjectItem × Nat) (c : Cluster) : List ObjectItem × Nat :=
  let t := combinedText c
  if t = "" then st
  else
    let stale := c.shapes.filterMap fun m => lookupShape existing m.id
    let staleIds := stale.map fun o => o.id
    let idx := st.1.filter fun o => o.id ∉ staleIds
    match emb t with
    | some v => (idx ++ [⟨st.2, t, v, (c.shapes.headI).id⟩], st.2 + 1)
    | none => (idx, st.2)

/-- One full synchronization pass of `updateVectorIndex` over a snapshot:
cluster the notes, then reconcile each cluster against the index, with
`existing` both the pass-start store snapshot and the initial live index,
and `n0` the first fresh entry id.  Returns the final index (the store
contents after the trailing `saveIndex`). -/
def updateVectorIndex (emb : String → Option (List Int))
    (existing : List ObjectItem) (n0 : Nat) (notes : List Note) : List ObjectItem :=
  ((buildClusters notes).foldl (syncCluster emb existing) (existing, n0)).1

/- ### Uniqueness of live entries per representative shapeId -/

/-- Number of live entries carrying a given `shapeId`. -/
def countByShape (l : List ObjectItem) (sid : String) : Nat :=
  (l.filter fun o => o.shapeId = sid).length

theorem countByShape_filter_le (l : List ObjectItem) (p : ObjectItem → Bool)
    (sid : String) : countByShape (l.filter p) sid ≤ countByShape l sid := by
  unfold countByShape
  rw [List.filter_comm]
  exact List.Sublist.length_le (List.filter_sublist _)

theorem headI_mem_of_ne_nil {α : Type} [Inhabited α] (l : List α) (h : l ≠ []) :
    l.headI ∈ l := by
  cases l with
  | nil => exact absurd rfl h
  | cons a t => exact List.mem_cons_self a t

/-- In a store whose shapeIds are pairwise distinct, the shapeId lookup
map resolves a present shapeId to its unique entry. -/
theorem lookupShape_eq_of_nodup (existing : List ObjectItem)
    (hwf : (existing.map fun o => o.shapeId).Nodup)
    (o : ObjectItem) (ho : o ∈ existing) : lookupShape existing o.shapeId = some o := by
  have hsub : (existing.filter fun o' => o'.shapeId = o.shapeId).Sublist existing :=
    List.filter_sublist existing
  have hnd : ((existing.filter fun o' => o'.shapeId = o.shapeId).map
      fun o' => o'.shapeId).Nodup := (hsub.map _).nodup hwf
  have homem : o ∈ existing.filter fun o' => o'.shapeId = o.shapeId := by
    simp [List.mem_filter, ho]
  cases hflt : existing.filter fun o' => o'.shapeId = o.shapeId with
  | nil => rw [hflt] at homem; simp at homem
  | cons a t =>
    cases t with
    | nil =>
      rw [hflt] at homem
      rcases List.mem_singleton.mp homem with rfl
      simp [lookupShape, hflt]
    | cons b t' =>
      exfalso
      have ha : a.shapeId = o.shapeId := by
        have := List.mem_filter.mp (hflt ▸ List.mem_cons_self a (b :: t'))
        simpa using this.2
      have hb : b.shapeId = o.shapeId := by
        have := List.mem_filter.mp
          (hflt ▸ List.mem_cons_of_mem a (List.mem_cons_self b t'))
        simpa using this.2
      rw [hflt] at hnd
      simp [ha, hb] at hnd

/-- Clusters whose representative differs from `r` never add an `r`-entry
and never grow the `r`-count. -/
theorem syncFold_count_le (emb : String → Option (List Int))
    (existing : List ObjectItem) (r : String) :
    ∀ (cs : List Cluster) (st : List ObjectItem × Nat),
      (∀ c' ∈ cs, (c'.shapes.headI).id ≠ r) →
      countByShape st.1 r ≤ 1 →
      countByShape (cs.foldl (syncCluster emb existing) st).1 r ≤ 1 := by
  intro cs
  induction cs with
  | nil => intro st _ h1; simpa using h1
  | cons c cs ih =>
    intro st hrep h1
    rw [List.foldl_cons]
    refine ih _ (fun c' hc' => hrep c' (List.mem_cons_of_mem _ hc')) ?_
    unfold syncCluster
    by_cases ht : combinedText c = ""
    · simpa [ht] using h1
    · simp only [if_neg ht]
      have hfil := countByShape_filter_le st.1
        (fun o => decide (o.id ∉ (c.shapes.filterMap fun m =>
          lookupShape existing m.id).map fun o => o.id)) r
      cases hemb : emb (combinedText c) with
      | none => simpa [hemb] using le_trans hfil h1
      | some v =>
        simp only [hemb]
        have hnew : countByShape [(⟨st.2, combinedText c, v, (c.shapes.headI).id⟩ :
            ObjectItem)] r = 0 := by
          simp [countByShape, hrep c (List.mem_cons_self _ _)]
        calc countByShape ((st.1.filter fun o => o.id ∉ (c.shapes.filterMap fun m =>
                lookupShape existing m.id).map fun o => o.id) ++
                [⟨st.2, combinedText c, v, (c.shapes.headI).id⟩]) r
            = countByShape (st.1.filter fun o => o.id ∉ (c.shapes.filterMap fun m =>
                lookupShape existing m.id).map fun o => o.id) r + 0 := by
              rw [← hnew]; simp [countByShape, List.filter_append]
          _ ≤ 1 := by simpa using le_trans hfil h1

/-- Clusters never add an entry whose shapeId differs from their own
representative, so `r`-entries in the live index always come from the
original store while only clusters with representative `≠ r` have run. -/
theorem syncFold_mem_existing (emb : String → Option (List Int))
    (existing : List ObjectItem) (r : String) :
    ∀ (cs : List Cluster) (st : List ObjectItem × Nat),
      (∀ c' ∈ cs, (c'.shapes.headI).id ≠ r) →
      (∀ o ∈ st.1, o.shapeId = r → o ∈ existing) →
      ∀ o ∈ (cs.foldl (syncCluster emb existing) st).1, o.shapeId = r → o ∈ existing := by
  intro cs
  induction cs with
  | nil => intro st _ hmem; simpa using hmem
  | cons c cs ih =>
    intro st hrep hmem
    rw [List.foldl_cons]
    refine ih _ (fun c' hc' => hrep c' (List.mem_cons_of_mem _ hc')) ?_
    intro o ho hor
    unfold syncCluster at ho
    by_cases ht : combinedText c = ""
    · exact hmem o (by simpa [ht] using ho) hor
    · simp only [if_neg ht] at ho
      cases hemb : emb (combinedText c) with
      | none =>
        rw [hemb] at ho
        exact hmem o (List.mem_of_mem_filter ho) hor
      | some v =>
        rw [hemb] at ho
        rcases List.mem_append.mp ho with hl | hr
        · exact hmem o (List.mem_of_mem_filter hl) hor
        · rcases List.mem_singleton.mp hr with rfl
          exact absurd hor (hrep c (List.mem_cons_self _ _))

/-- Processing a nonempty-text cluster leaves at most one live entry for
its representative shapeId: the removal loop deletes every stored entry
for any member (in a duplicate-free store the shapeId map is exact), and
at most one fresh entry is added. -/
theorem syncCluster_target (emb : String → Option (List Int))
    (existing : List ObjectItem)
    (hwf : (existing.map fun o => o.shapeId).Nodup)
    (st : List ObjectItem × Nat) (c : Cluster)
    (ht : combinedText c ≠ "") (hsh : c.shapes ≠ [])
    (hmem : ∀ o ∈ st.1, o.shapeId = (c.shapes.headI).id → o ∈ existing) :
    countByShape (syncCluster emb existing st c).1 (c.shapes.headI).id ≤ 1 := by
  set r := (c.shapes.headI).id with hr
  have hkill : ∀ o ∈ st.1.filter fun o =>
      o.id ∉ (c.shapes.filterMap fun m => lookupShape existing m.id).map fun o => o.id,
      o.shapeId ≠ r := by
    intro o ho
    rcases List.mem_filter.mp ho with ⟨hoSt, hoKeep⟩
    intro hor
    have hoEx : o ∈ existing := hmem o hoSt hor
    have hlook : lookupShape existing r = some o := by
      rw [← hor]; exact lookupShape_eq_of_nodup existing hwf o hoEx
    have hoStale : o ∈ c.shapes.filterMap fun m => lookupShape existing m.id := by
      refine List.mem_filterMap.mpr ⟨c.shapes.headI, headI_mem_of_ne_nil _ hsh, ?_⟩
      rw [← hr, hlook]
    have : o.id ∈ (c.shapes.filterMap fun m => lookupShape existing m.id).map
        fun o => o.id := List.mem_map_of_mem _ hoStale
    simp [this] at hoKeep
  have hzero : countByShape (st.1.filter fun o =>
      o.id ∉ (c.shapes.filterMap fun m => lookupShape existing m.id).map
        fun o => o.id) r = 0 := by
    unfold countByShape
    rw [List.length_eq_zero]
    rw [List.filter_eq_nil_iff]
    intro o ho
    simpa using hkill o ho
  unfold syncCluster
  simp only [if_neg ht]
  cases hemb : emb (combinedText c) with
  | none =>
    simp only [hemb]
    exact le_trans hzero.le (Nat.zero_le 1)
  | some v =>
    simp only [hemb]
    have : countByShape ((st.1.filter fun o =>
        o.id ∉ (c.shapes.filterMap fun m => lookupShape existing m.id).map
          fun o => o.id) ++ [⟨st.2, combinedText c, v, r⟩]) r ≤ 0 + 1 := by
      unfold countByShape
      rw [List.filter_append, List.length_append]
      have h1 : ((st.1.filter fun o =>
          o.id ∉ (c.shapes.filterMap fun m => lookupShape existing m.id).map
            fun o => o.id).filter fun o => o.shapeId = r).length = 0 := hzero
      have h2 : (([⟨st.2, combinedText c, v, r⟩] :
          List ObjectItem).filter fun o => o.shapeId = r).length ≤ 1 := by
        simp
      omega
    simpa [← hr] using this

/-- If the snapshot's shape ids are pairwise distinct, so are the ids of
the notes flattened out of the built clusters. -/
theorem buildClusters_ids_nodup (notes : List Note)
    (hids : (notes.map fun s => s.id).Nodup) :
    (((buildClusters notes).flatMap fun c => c.shapes).map fun s => s.id).Nodup :=
  (List.Perm.nodup_iff ((buildClusters_flat_perm notes).map fun s => s.id)).mpr hids

/-- **C1.** After a synchronization pass over a duplicate-free store and a
snapshot with pairwise-distinct shape ids, every representative shapeId of
a cluster with nonempty combined text carries at most one live index
entry: the pass removes every stored entry matching any member of the
cluster before inserting the cluster's fresh entry.  Concretely, indexing
the same shapeId's cluster twice, with combined texts "hello" and then
"hello world", leaves exactly one entry for that shapeId, carrying
"hello world" as its name. -/
theorem indexSync_unique_live_entry :
    (∀ (emb : String → Option (List Int)) (existing : List ObjectItem)
        (n0 : Nat) (notes : List Note),
      (existing.map fun o => o.shapeId).Nodup →
      (notes.map fun s => s.id).Nodup →
      ∀ c ∈ buildClusters notes, combinedText c ≠ "" →
        countByShape (updateVectorIndex emb existing n0 notes)
          (c.shapes.headI).id ≤ 1) ∧
    updateVectorIndex (fun _ => some [7])
        (updateVectorIndex (fun _ => some [7]) [] 0 [⟨"s1", "hello", ⟨0, 0⟩⟩]) 1
        [⟨"s1", "hello world", ⟨0, 0⟩⟩] =
      [⟨1, "hello world", [7], "s1"⟩] := by
  constructor
  · intro emb existing n0 notes hwf hids c hc ht
    rcases List.append_of_mem hc with ⟨pre, post, hsplit⟩
    have hgood : ∀ c' ∈ buildClusters notes, GoodCluster c' :=
      goodCluster_buildClusters notes
    have hcne : c.shapes ≠ [] := (hgood c hc).1
    have hnd := buildClusters_ids_nodup notes hids
    rw [hsplit, List.flatMap_append, List.flatMap_cons, List.map_append,
      List.map_append] at hnd
    rcases List.nodup_append.mp hnd with ⟨hA, hBC, hdisjA⟩
    rcases List.nodup_append.mp hBC with ⟨hB, hC, hdisjBC⟩
    have hrB : (c.shapes.headI).id ∈ c.shapes.map fun s => s.id :=
      List.mem_map_of_mem _ (headI_mem_of_ne_nil _ hcne)
    have hpre : ∀ c' ∈ pre, (c'.shapes.headI).id ≠ (c.shapes.headI).id := by
      intro c' hc' he
      have hc'mem : c' ∈ buildClusters notes := by
        rw [hsplit]; exact List.mem_append_left _ hc'
      have h1 : (c'.shapes.headI).id ∈
          (pre.flatMap fun cl => cl.shapes).map fun s => s.id :=
        List.mem_map_of_mem _ (List.mem_flatMap.mpr
          ⟨c', hc', headI_mem_of_ne_nil _ (hgood c' hc'mem).1⟩)
      have h2 : (c'.shapes.headI).id ∈
          (c.shapes.map fun s => s.id) ++
            (post.flatMap fun cl => cl.shapes).map fun s => s.id :=
        List.mem_append_left _ (by rw [he]; exact hrB)
      exact hdisjA h1 h2
    have hpost : ∀ c'' ∈ post, (c''.shapes.headI).id ≠ (c.shapes.headI).id := by
      intro c'' hc'' he
      have hc''mem : c'' ∈ buildClusters notes := by
        rw [hsplit]
        exact List.mem_append_right _ (List.mem_cons_of_mem _ hc'')
      have h1 : (c''.shapes.headI).id ∈
          (post.flatMap fun cl => cl.shapes).map fun s => s.id :=
        List.mem_map_of_mem _ (List.mem_flatMap.mpr
          ⟨c'', hc'', headI_mem_of_ne_nil _ (hgood c'' hc''mem).1⟩)
      have h2 : (c''.shapes.headI).id ∈ c.shapes.map fun s => s.id := by
        rw [he]; exact hrB
      exact hdisjBC h2 h1
    unfold updateVectorIndex
    rw [hsplit, List.foldl_append, List.foldl_cons]
    refine syncFold_count_le emb existing _ post _ hpost ?_
    refine syncCluster_target emb existing hwf _ c ht hcne ?_
    exact syncFold_mem_existing emb existing _ pre (existing, n0) hpre
      (fun o ho _ => ho)
  · rfl

/-- Witness for C1: the pass over a single "hello" note from an empty
store leaves at most one entry keyed by that note's shape id. -/
theorem indexSync_unique_live_entry_witness :
    countByShape (updateVectorIndex (fun _ => some [7]) [] 0
      [⟨"s1", "hello", ⟨0, 0⟩⟩]) "s1" ≤ 1 :=
  indexSync_unique_live_entry.1 (fun _ => some [7]) [] 0
    [⟨"s1", "hello", ⟨0, 0⟩⟩] (by simp) (by simp)
    ⟨[⟨"s1", "hello", ⟨0, 0⟩⟩], ⟨0, 0⟩⟩ (by decide) (by decide)

/-- **C2.** Clustering processes notes in snapshot order; each note joins
the first open cluster (in cluster-creation order, not the nearest one)
whose centroid is strictly within 200 distance-units, and opens a new
singleton cluster otherwise.  Two notes 100 apart share one cluster; two
notes 300 apart, with nothing bridging them, end in separate clusters;
and a note at 190 from the first cluster joins it even though the second
cluster is nearer (160 away). -/
theorem clustering_first_match_threshold :
    (∀ (cs : List Cluster) (n : Note),
      insertNote cs n =
        match cs.findIdx? fun c => decide (withinThreshold n.center c.center) with
        | some j => List.modify (fun c => addNote c n) j cs
        | none => cs ++ [mkSingleton n]) ∧
    buildClusters [⟨"a", "a", ⟨0, 0⟩⟩, ⟨"b", "b", ⟨100, 0⟩⟩] =
      [⟨[⟨"a", "a", ⟨0, 0⟩⟩, ⟨"b", "b", ⟨100, 0⟩⟩], ⟨50, 0⟩⟩] ∧
    buildClusters [⟨"a", "a", ⟨0, 0⟩⟩, ⟨"b", "b", ⟨300, 0⟩⟩] =
      [⟨[⟨"a", "a", ⟨0, 0⟩⟩], ⟨0, 0⟩⟩, ⟨[⟨"b", "b", ⟨300, 0⟩⟩], ⟨300, 0⟩⟩] ∧
    buildClusters [⟨"a", "a", ⟨0, 0⟩⟩, ⟨"b", "b", ⟨350, 0⟩⟩, ⟨"c", "c", ⟨190, 0⟩⟩] =
      [⟨[⟨"a", "a", ⟨0, 0⟩⟩, ⟨"c", "c", ⟨190, 0⟩⟩], ⟨95, 0⟩⟩,
        ⟨[⟨"b", "b", ⟨350, 0⟩⟩], ⟨350, 0⟩⟩] := by
  refine ⟨insertNote_first_match, ?_, ?_, ?_⟩ <;>
    norm_num [buildClusters, insertNote, withinThreshold, calculateDistanceSq,
      CLUSTER_THRESHOLD, addNote, mkSingleton, centroid]

/-- **C9.** Every cluster's centroid is the unweighted arithmetic mean of
its current member centers, recomputed at every membership change; for
notes at (0,0), (100,0), (0,100) joining one cluster in input order the
final centroid is (100/3, 100/3) (≈ (33.33, 33.33)). -/
theorem centroid_unweighted_mean :
    (∀ (notes : List Note), ∀ c ∈ buildClusters notes,
      c.center = centroid c.shapes) ∧
    buildClusters [⟨"a", "a", ⟨0, 0⟩⟩, ⟨"b", "b", ⟨100, 0⟩⟩, ⟨"c", "c", ⟨0, 100⟩⟩] =
      [⟨[⟨"a", "a", ⟨0, 0⟩⟩, ⟨"b", "b", ⟨100, 0⟩⟩, ⟨"c", "c", ⟨0, 100⟩⟩],
        ⟨100 / 3, 100 / 3⟩⟩] := by
  refine ⟨fun notes c hc => (goodCluster_buildClusters notes c hc).2, ?_⟩
  norm_num [buildClusters, insertNote, withinThreshold, calculateDistanceSq,
    CLUSTER_THRESHOLD, addNote, mkSingleton, centroid]

/-- Witness for C9 at a concrete cluster of `buildClusters`. -/
theorem centroid_unweighted_mean_witness :
    (⟨[⟨"a", "a", ⟨0, 0⟩⟩], ⟨0, 0⟩⟩ : Cluster).center =
      centroid [⟨"a", "a", ⟨0, 0⟩⟩] :=
  centroid_unweighted_mean.1 [⟨"a", "a", ⟨0, 0⟩⟩] ⟨[⟨"a", "a", ⟨0, 0⟩⟩], ⟨0, 0⟩⟩
    (List.mem_singleton.mpr rfl)

/-- **C10.** The clusters form a partition of the input notes: the
flattened members are a permutation of the input, every cluster is
nonempty, each note of a duplicate-free snapshot lands in exactly one
cluster (counting multiplicity), and a singleton cluster's centroid is
its sole member's center. -/
theorem clustering_partition :
    (∀ notes : List Note,
      ((buildClusters notes).flatMap fun c => c.shapes).Perm notes) ∧
    (∀ notes : List Note, ∀ c ∈ buildClusters notes, c.shapes ≠ []) ∧
    (∀ notes : List Note, (notes.map fun s => s.id).Nodup →
      ∀ n ∈ notes, ((buildClusters notes).flatMap fun c => c.shapes).count n = 1) ∧
    (∀ notes : List Note, ∀ c ∈ buildClusters notes,
      ∀ m, c.shapes = [m] → c.center = m.center) := by
  refine ⟨buildClusters_flat_perm,
    fun notes c hc => (goodCluster_buildClusters notes c hc).1, ?_, ?_⟩
  · intro notes hids n hn
    rw [(buildClusters_flat_perm notes).count_eq]
    exact List.count_eq_one_of_mem (hids.of_map _) hn
  · intro notes c hc m hm
    have := (goodCluster_buildClusters notes c hc).2
    rw [this, hm, centroid_singleton]

/-- Witness for C10 at a concrete one-note snapshot. -/
theorem clustering_partition_witness :
    ((buildClusters [⟨"a", "hi", ⟨0, 0⟩⟩]).flatMap fun c => c.shapes).count
      ⟨"a", "hi", ⟨0, 0⟩⟩ = 1 :=
  clustering_partition.2.2.1 [⟨"a", "hi", ⟨0, 0⟩⟩] (by simp)
    ⟨"a", "hi", ⟨0, 0⟩⟩ (List.mem_singleton.mpr rfl)

/- ### The change observer (`WhiteboardWithSearch.handleChange`) -/

/-- The data retained per tracked shape: its text and page-space center. -/
structure ShapeData where
  text : String
  center : Point
deriving DecidableEq, Repr

/-- A snapshot of the tracked text shapes, in canvas enumeration order
(the `Map<string, { text, center }>` of the source; keys are unique). -/
abbrev Snapshot := List (String × ShapeData)

/-- `previousShapesRef.current.get(id)`. -/
def snapLookup (snap : Snapshot) (id : String) : Option ShapeData :=
  snap.lookup id

/-- The per-shape change test of `handleChange`: changed when the shape
is new, or its text differs, or its center x or y differs. -/
def shapeChanged (prev : Snapshot) (id : String) (d : ShapeData) : Bool :=
  match snapLookup prev id with
  | none => true
  | some p =>
    decide (p.text ≠ d.text) || decide (p.center.x ≠ d.center.x) ||
      decide (p.center.y ≠ d.center.y)

/-- One run of the change observer: given the retained previous snapshot
and the freshly extracted one, emit the new snapshot (and retain it) only
when some tracked shape changed or the tracked count differs; otherwise
emit nothing and keep the previous snapshot.  Returns
`(emitted?, retained)`. -/
def handleChange (prev cur : Snapshot) : Option Snapshot × Snapshot :=
  let hasChanges :=
    (cur.any fun e => shapeChanged prev e.1 e.2) || decide (prev.length ≠ cur.length)
  if hasChanges then (some cur, cur) else (none, prev)

/-- **C3.** Re-observing an unchanged canvas is a no-op: when every
currently tracked shape is retained with identical text and center, and
the tracked count is unchanged, the observer emits nothing and keeps its
previous snapshot. -/
theorem changeObserver_noop (prev cur : Snapshot)
    (hsame : ∀ e ∈ cur, snapLookup prev e.1 = some e.2)
    (hlen : prev.length = cur.length) :
    handleChange prev cur = (none, prev) := by
  unfold handleChange
  have hany : (cur.any fun e => shapeChanged prev e.1 e.2) = false := by
    rw [List.any_eq_false]
    intro e he
    rw [shapeChanged, hsame e he]
    simp
  rw [hany, hlen]
  simp

/-- Witness for C3: a one-note canvas observed twice without edits. -/
theorem changeObserver_noop_witness :
    handleChange [("s1", ⟨"hi", ⟨1, 2⟩⟩)] [("s1", ⟨"hi", ⟨1, 2⟩⟩)] =
      (none, [("s1", ⟨"hi", ⟨1, 2⟩⟩)]) :=
  changeObserver_noop [("s1", ⟨"hi", ⟨1, 2⟩⟩)] [("s1", ⟨"hi", ⟨1, 2⟩⟩)]
    (by intro e he; simp at he; rw [he]; rfl) rfl

/- ### Partial-failure tolerance of the cluster loop -/

/-- Against an empty store there is nothing to remove: a cluster step
either appends one fresh entry (nonempty text, successful embedding) or
leaves the index unchanged (empty text, or embedding failure caught by
the per-cluster handler). -/
theorem syncCluster_nil_existing (emb : String → Option (List Int))
    (st : List ObjectItem × Nat) (c : Cluster) :
    syncCluster emb [] st c =
      if combinedText c = "" then st
      else
        match emb (combinedText c) with
        | some v => (st.1 ++ [⟨st.2, combinedText c, v, (c.shapes.headI).id⟩], st.2 + 1)
        | none => (st.1, st.2) := by
  unfold syncCluster lookupShape
  simp

/-- Over an empty store the pass appends exactly one entry per cluster
with nonempty text whose embedding succeeds, regardless of failures among
the other clusters. -/
theorem syncFold_nil_length (emb : String → Option (List Int)) :
    ∀ (cs : List Cluster) (st : List ObjectItem × Nat),
      ((cs.foldl (syncCluster emb []) st).1).length =
        st.1.length + (cs.filter fun c =>
          decide (combinedText c ≠ "") && (emb (combinedText c)).isSome).length := by
  intro cs
  induction cs with
  | nil => intro st; simp
  | cons c cs ih =>
    intro st
    rw [List.foldl_cons, ih, syncCluster_nil_existing]
    by_cases ht : combinedText c = ""
    · simp [ht]
    · cases hemb : emb (combinedText c) with
      | none => simp [ht, hemb]
      | some v => simp [ht, hemb]; omega

/-- **C5.** A caught per-cluster embedding failure does not abort the
pass: over an empty store the index grows by exactly the number of
nonempty-text clusters whose embedding succeeds.  With three singleton
clusters "a", "b", "c" where only "b" always fails, the pass still adds
entries for "a" and "c": the index grows by exactly 2, not 0 and not 3. -/
theorem embedding_partial_failure_isolated :
    (∀ (emb : String → Option (List Int)) (n0 : Nat) (notes : List Note),
      (updateVectorIndex emb [] n0 notes).length =
        ((buildClusters notes).filter fun c =>
          decide (combinedText c ≠ "") && (emb (combinedText c)).isSome).length) ∧
    updateVectorIndex (fun t => if t = "b" then none else some [1]) [] 0
        [⟨"na", "a", ⟨0, 0⟩⟩, ⟨"nb", "b", ⟨1000, 0⟩⟩, ⟨"nc", "c", ⟨2000, 0⟩⟩] =
      [⟨0, "a", [1], "na"⟩, ⟨1, "c", [1], "nc"⟩] := by
  constructor
  · intro emb n0 notes
    unfold updateVectorIndex
    rw [syncFold_nil_length]
    simp
  · have hclusters :
        buildClusters [⟨"na", "a", ⟨0, 0⟩⟩, ⟨"nb", "b", ⟨1000, 0⟩⟩,
            ⟨"nc", "c", ⟨2000, 0⟩⟩] =
          [⟨[⟨"na", "a", ⟨0, 0⟩⟩], ⟨0, 0⟩⟩, ⟨[⟨"nb", "b", ⟨1000, 0⟩⟩], ⟨1000, 0⟩⟩,
            ⟨[⟨"nc", "c", ⟨2000, 0⟩⟩], ⟨2000, 0⟩⟩] := by
      norm_num [buildClusters, insertNote, withinThreshold, calculateDistanceSq,
        CLUSTER_THRESHOLD, addNote, mkSingleton, centroid]
    unfold updateVectorIndex
    rw [hclusters]
    rfl

/- ### The embedding gateway's retry policy (`getEmbeddingWithRetry`) -/

/-- The recursive body of `getEmbeddingWithRetry`, with the effects made
explicit: `provider k` is the outcome of the (0-based) `k`-th attempt at
the raw `getEmbedding` call, and the second component of the result
accumulates the total `setTimeout` delay in milliseconds.  On failure
with retries left the code waits 1000 ms and recurses with one retry
fewer; with no retries left it rethrows the current failure. -/
def getEmbeddingWithRetryAux (provider : Nat → Except String (List Int)) :
    Nat → Nat → Except String (List Int) × Nat
  | attempt, retries =>
    match provider attempt with
    | .ok v => (.ok v, 0)
    | .error e =>
      match retries with
      | 0 => (.error e, 0)
      | r + 1 =>
        ((getEmbeddingWithRetryAux provider (attempt + 1) r).1,
          1000 + (getEmbeddingWithRetryAux provider (attempt + 1) r).2)

/-- `getEmbeddingWithRetry(text)` with the default `retries = 3`. -/
def getEmbeddingWithRetryRun (provider : Nat → Except String (List Int)) :
    Except String (List Int) × Nat :=
  getEmbeddingWithRetryAux provider 0 3

/-- **C6.** The gateway returns the provider's vector on the first
success, waiting a fixed 1000 ms before each of at most 3 retries (so a
success at attempt `j ≤ 3` costs `1000·j` ms of delay and no further
calls), and after all 4 attempts fail it propagates the last failure,
having waited 3000 ms in total — a fixed-delay linear retry. -/
theorem embedding_retry_policy :
    (∀ (provider : Nat → Except String (List Int)) (j : Nat) (v : List Int),
      j ≤ 3 → (∀ i, i < j → ∃ e, provider i = .error e) → provider j = .ok v →
      getEmbeddingWithRetryRun provider = (.ok v, 1000 * j)) ∧
    (∀ (provider : Nat → Except String (List Int)) (e3 : String),
      (∀ i, i < 3 → ∃ e, provider i = .error e) → provider 3 = .error e3 →
      getEmbeddingWithRetryRun provider = (.error e3, 3000)) := by
  constructor
  · intro provider j v hj herr hok
    interval_cases j
    · simp [getEmbeddingWithRetryRun, getEmbeddingWithRetryAux, hok]
    · obtain ⟨e0, h0⟩ := herr 0 (by norm_num)
      simp [getEmbeddingWithRetryRun, getEmbeddingWithRetryAux, h0, hok]
    · obtain ⟨e0, h0⟩ := herr 0 (by norm_num)
      obtain ⟨e1, h1⟩ := herr 1 (by norm_num)
      simp [getEmbeddingWithRetryRun, getEmbeddingWithRetryAux, h0, h1, hok]
    · obtain ⟨e0, h0⟩ := herr 0 (by norm_num)
      obtain ⟨e1, h1⟩ := herr 1 (by norm_num)
      obtain ⟨e2, h2⟩ := herr 2 (by norm_num)
      simp [getEmbeddingWithRetryRun, getEmbeddingWithRetryAux, h0, h1, h2, hok]
  · intro provider e3 herr h3
    obtain ⟨e0, h0⟩ := herr 0 (by norm_num)
    obtain ⟨e1, h1⟩ := herr 1 (by norm_num)
    obtain ⟨e2, h2⟩ := herr 2 (by norm_num)
    simp [getEmbeddingWithRetryRun, getEmbeddingWithRetryAux, h0, h1, h2, h3]

/-- Witness for C6: a provider failing on attempts 0 and 1 and
succeeding on attempt 2 yields the vector after 2000 ms of delay. -/
theorem embedding_retry_policy_witness :
    getEmbeddingWithRetryRun
        (fun i => if i < 2 then .error "boom" else .ok [1]) =
      (.ok [1], 2000) :=
  embedding_retry_policy.1 (fun i => if i < 2 then .error "boom" else .ok [1])
    2 [1] (by norm_num)
    (fun i hi => ⟨"boom", by simp [hi]⟩) (by norm_num)

/- ### The chat relay endpoint (`POST /api/chat`) -/

/-- One conversation message from the request body. -/
structure ChatMsg where
  role : String
  content : String
deriving DecidableEq, Repr

/-- A parsed request body `{ messages, searchContext, base64Image }`. -/
structure ChatBody where
  messages : List ChatMsg
  searchContext : String
  base64Image : Option String
deriving DecidableEq, Repr

/-- Content of a formatted provider message: plain text, or the
text-plus-image pair sent when a screenshot is attached. -/
inductive FormattedContent where
  | plain (text : String)
  | textAndImage (text : String) (imageUrl : String)
deriving DecidableEq, Repr

/-- A formatted provider message. -/
structure FormattedMsg where
  role : String
  content : FormattedContent
deriving DecidableEq, Repr

/-- The request assembly of the handler: the framing message embedding
`searchContext`, then the conversation history, then (if an image is
present) a final user message carrying the label text and the image. -/
def buildProviderMessages (b : ChatBody) : List FormattedMsg :=
  [⟨"user", .plain
      ("You are an AI assistant helping to analyze and discuss content from a whiteboard. The user's query is related to the following content found on the whiteboard, make sense of it and assume that this part is just text extracted from the whiteboard - ignore gibberish and do not mention how many times something occurs or describe the context:\n\n"
        ++ b.searchContext ++ ". Do not respond with any formatting or markdown.")⟩]
    ++ b.messages.map (fun m => ⟨m.role, .plain m.content⟩)
    ++ (match b.base64Image with
        | some img =>
          [⟨"user", .textAndImage
              ("Here is the relevant section of the whiteboard:" ++ b.searchContext)
              img⟩]
        | none => [])

/-- One choice of a provider completion; `content` is nullable. -/
structure Choice where
  content : Option String
deriving DecidableEq, Repr

/-- A provider completion: a list of candidate choices. -/
structure Completion where
  choices : List Choice
deriving DecidableEq, Repr

/-- The HTTP response of the relay: a 2xx JSON `{ content }` or a non-2xx
JSON `{ error }`. -/
inductive RelayResponse where
  | ok (status : Nat) (content : String)
  | err (status : Nat) (error : String)
deriving DecidableEq, Repr

/-- `completion.choices[0]?.message?.content || 'No response generated'`:
the first choice's text, with the JS `||` falling back on a missing
choice, a null content, or an empty string. -/
def extractContent (comp : Completion) : String :=
  let t := ((comp.choices.head?).bind fun c => c.content).getD ""
  if t = "" then "No response generated" else t

/-- `error.message || 'Failed to generate response'`. -/
def errMessage (e : String) : String :=
  if e = "" then "Failed to generate response" else e

/-- The `POST` handler: a failed body parse or destructure is caught by
the try/catch and answered with status 500 and an error string; otherwise
the formatted messages go to the provider, whose failure is caught the
same way, and whose success is answered with status 200 and the first
choice's text (or the fallback). -/
def postChat (parsed : Except String ChatBody)
    (provider : List FormattedMsg → Except String Completion) : RelayResponse :=
  match parsed with
  | .error e => .err 500 (errMessage e)
  | .ok b =>
    match provider (buildProviderMessages b) with
    | .error e => .err 500 (errMessage e)
    | .ok comp => .ok 200 (extractContent comp)

/-- **C7.** A well-formed body whose provider call succeeds is answered
with status 200 (a 2xx) and body `{ content }`, where `content` is the
first choice's text when that is present and nonempty and the fallback
"No response generated" when the provider returns nothing; a malformed
body or a provider failure is answered with status 500 (a non-2xx) and an
error string. -/
theorem chat_relay_contract :
    (∀ (parsed : Except String ChatBody)
        (provider : List FormattedMsg → Except String Completion)
        (b : ChatBody) (comp : Completion),
      parsed = .ok b → provider (buildProviderMessages b) = .ok comp →
      postChat parsed provider = .ok 200 (extractContent comp) ∧ 200 / 100 = 2 ∧
        (comp.choices = [] → extractContent comp = "No response generated") ∧
        (∀ t, comp.choices.head? = some ⟨some t⟩ → t ≠ "" → extractContent comp = t)) ∧
    (∀ (e : String) (provider : List FormattedMsg → Except String Completion),
      ∃ msg, postChat (.error e) provider = .err 500 msg ∧ 500 / 100 ≠ 2) ∧
    (∀ (parsed : Except String ChatBody)
        (provider : List FormattedMsg → Except String Completion)
        (b : ChatBody) (e : String),
      parsed = .ok b → provider (buildProviderMessages b) = .error e →
      postChat parsed provider = .err 500 (errMessage e) ∧ 500 / 100 ≠ 2) := by
  refine ⟨?_, ?_, ?_⟩
  · intro parsed provider b comp hb hp
    subst hb
    refine ⟨by simp [postChat, hp], by norm_num, ?_, ?_⟩
    · intro hnil
      simp [extractContent, hnil]
    · intro t hhead hne
      simp [extractContent, hhead, hne]
  · intro e provider
    exact ⟨errMessage e, rfl, by norm_num⟩
  · intro parsed provider b e hb hp
    subst hb
    exact ⟨by simp [postChat, hp], by norm_num⟩

/-- Witness for C7: a concrete one-message body against a provider that
answers with one choice "hi". -/
theorem chat_relay_contract_witness :
    postChat (.ok ⟨[⟨"user", "hello"⟩], "ctx", none⟩)
        (fun _ => .ok ⟨[⟨some "hi"⟩]⟩) =
      .ok 200 (extractContent ⟨[⟨some "hi"⟩]⟩) ∧ 200 / 100 = 2 ∧
      ((⟨[⟨some "hi"⟩]⟩ : Completion).choices = [] →
        extractContent ⟨[⟨some "hi"⟩]⟩ = "No response generated") ∧
      (∀ t, (⟨[⟨some "hi"⟩]⟩ : Completion).choices.head? = some ⟨some t⟩ →
        t ≠ "" → extractContent ⟨[⟨some "hi"⟩]⟩ = t) :=
  chat_relay_contract.1 (.ok ⟨[⟨"user", "hello"⟩], "ctx", none⟩)
    (fun _ => .ok ⟨[⟨some "hi"⟩]⟩) ⟨[⟨"user", "hello"⟩], "ctx", none⟩
    ⟨[⟨some "hi"⟩]⟩ rfl rfl

/- ### The median focal point (`captureAreaAroundShapes` / `handleChat`) -/

/-- The comparator `(a, b) => a.x - b.x` of the source, as an order. -/
def leX (a b : Point) : Prop := a.x ≤ b.x

/-- The comparator `(a, b) => a.y - b.y` of the source, as an order. -/
def leY (a b : Point) : Prop := a.y ≤ b.y

instance : DecidableRel leX := fun a b => by unfold leX; infer_instance

instance : DecidableRel leY := fun a b => by unfold leY; infer_instance

instance : IsTotal Point leX := ⟨fun a b => le_total a.x b.x⟩

instance : IsTotal Point leY := ⟨fun a b => le_total a.y b.y⟩

instance : IsTrans Point leX := ⟨fun _ _ _ hab hbc => le_trans hab hbc⟩

instance : IsTrans Point leY := ⟨fun _ _ _ hab hbc => le_trans hab hbc⟩

/-- `[...positions].sort((a, b) => a.x - b.x)`: JS `sort` is a stable
comparison sort, modelled by a stable insertion sort. -/
def sortByX (ps : List Point) : List Point := List.insertionSort leX ps

/-- `[...positions].sort((a, b) => a.y - b.y)`. -/
def sortByY (ps : List Point) : List Point := List.insertionSort leY ps

/-- The focal point: the per-axis medians
`sortedX[Math.floor(n / 2)].x` and `sortedY[Math.floor(n / 2)].y`,
computed over independently sorted coordinate sequences. -/
def medianFocal (ps : List Point) : Point :=
  { x := ((sortByX ps).getD (ps.length / 2) default).x
    y := ((sortByY ps).getD (ps.length / 2) default).y }

/-- In a list sorted by the key `f`, the element at index `k` has at
least `k + 1` elements with key at most its own and at least
`length - k` elements with key at least its own. -/
theorem sorted_rank_bounds (f : Point → ℚ) :
    ∀ (s : List Point), s.Pairwise (fun a b => f a ≤ f b) →
      ∀ (k : Nat) (hk : k < s.length),
        k + 1 ≤ (s.filter fun p => decide (f p ≤ f (s.get ⟨k, hk⟩))).length ∧
        s.length - k ≤ (s.filter fun p => decide (f (s.get ⟨k, hk⟩) ≤ f p)).length := by
  intro s
  induction s with
  | nil => intro _ k hk; simp at hk
  | cons a t ih =>
    intro hp k hk
    rcases List.pairwise_cons.mp hp with ⟨ha, ht⟩
    cases k with
    | zero =>
      have hget0 : (a :: t).get ⟨0, hk⟩ = a := rfl
      rw [hget0]
      constructor
      · have : a ∈ (a :: t).filter fun p => decide (f p ≤ f a) := by
          simp [List.mem_filter]
        calc 0 + 1 = 1 := by omega
          _ ≤ _ := List.length_pos.mpr (List.ne_nil_of_mem this)
      · have hall : ∀ p ∈ a :: t, decide (f a ≤ f p) = true := by
          intro p hp'
          rcases List.mem_cons.mp hp' with rfl | hmem
          · simp
          · simpa using ha p hmem
        rw [List.filter_eq_self.mpr hall]
        omega
    | succ k =>
      have hk' : k < t.length := by simpa using hk
      obtain ⟨ih1, ih2⟩ := ih ht k hk'
      have hget : (a :: t).get ⟨k + 1, hk⟩ = t.get ⟨k, hk'⟩ := rfl
      rw [hget]
      constructor
      · have hax : decide (f a ≤ f (t.get ⟨k, hk'⟩)) = true := by
          simpa using ha _ (t.get_mem _ _)
        rw [List.filter_cons, if_pos hax]
        simpa using ih1
      · rw [List.filter_cons]
        by_cases hcond : decide (f (t.get ⟨k, hk'⟩) ≤ f a) = true
        · rw [if_pos hcond]
          simp only [List.length_cons]
          omega
        · rw [if_neg hcond]
          simp only [List.length_cons]
          omega

/-- **C8.** The focal point is formed from independent per-axis medians:
each coordinate is an actual input coordinate on its axis sitting at rank
`⌊n/2⌋` of the independently sorted coordinate sequence (at least
`⌊n/2⌋ + 1` inputs lie at or below it and at least `n - ⌊n/2⌋` at or
above it, per axis); for positions (0,0), (10,0), (20,0) the focal x is
10; and the focal point need not coincide with any input position. -/
theorem median_focal_point :
    (∀ ps : List Point, ps ≠ [] →
      ((medianFocal ps).x ∈ ps.map fun p => p.x) ∧
      ((medianFocal ps).y ∈ ps.map fun p => p.y) ∧
      ps.length / 2 + 1 ≤
        (ps.filter fun p => decide (p.x ≤ (medianFocal ps).x)).length ∧
      ps.length - ps.length / 2 ≤
        (ps.filter fun p => decide ((medianFocal ps).x ≤ p.x)).length) ∧
    medianFocal [⟨0, 0⟩, ⟨10, 0⟩, ⟨20, 0⟩] = ⟨10, 0⟩ ∧
    medianFocal [⟨0, 0⟩, ⟨10, 5⟩, ⟨20, 0⟩] = ⟨10, 0⟩ ∧
    (⟨10, 0⟩ : Point) ∉ [⟨0, 0⟩, ⟨10, 5⟩, ⟨20, 0⟩] := by
  refine ⟨?_, ?_, ?_, ?_⟩
  · intro ps hne
    have hn : 0 < ps.length := List.length_pos.mpr hne
    have hpermx : (sortByX ps).Perm ps := List.perm_insertionSort leX ps
    have hpermy : (sortByY ps).Perm ps := List.perm_insertionSort leY ps
    have hlenx : (sortByX ps).length = ps.length := hpermx.length_eq
    have hleny : (sortByY ps).length = ps.length := hpermy.length_eq
    have hkx : ps.length / 2 < (sortByX ps).length := by
      rw [hlenx]; exact Nat.div_lt_self hn one_lt_two
    have hky : ps.length / 2 < (sortByY ps).length := by
      rw [hleny]; exact Nat.div_lt_self hn one_lt_two
    have hmx : (medianFocal ps).x = ((sortByX ps).get ⟨ps.length / 2, hkx⟩).x := by
      simp [medianFocal, List.getD_eq_getElem _ _ hkx,
        List.getElem?_eq_getElem hkx]
    have hmy : (medianFocal ps).y = ((sortByY ps).get ⟨ps.length / 2, hky⟩).y := by
      simp [medianFocal, List.getD_eq_getElem _ _ hky,
        List.getElem?_eq_getElem hky]
    have hsortx : (sortByX ps).Pairwise fun a b => a.x ≤ b.x :=
      List.sorted_insertionSort leX ps
    have hsorty : (sortByY ps).Pairwise fun a b => a.y ≤ b.y :=
      List.sorted_insertionSort leY ps
    obtain ⟨hx1, hx2⟩ := sorted_rank_bounds (fun p => p.x) (sortByX ps) hsortx
      (ps.length / 2) hkx
    refine ⟨?_, ?_, ?_, ?_⟩
    · rw [hmx]
      exact List.mem_map_of_mem _ (hpermx.mem_iff.mp ((sortByX ps).get_mem _ _))
    · rw [hmy]
      exact List.mem_map_of_mem _ (hpermy.mem_iff.mp ((sortByY ps).get_mem _ _))
    · rw [hmx]
      calc ps.length / 2 + 1
          ≤ ((sortByX ps).filter fun p =>
              decide (p.x ≤ ((sortByX ps).get ⟨ps.length / 2, hkx⟩).x)).length := hx1
        _ = (ps.filter fun p =>
              decide (p.x ≤ ((sortByX ps).get ⟨ps.length / 2, hkx⟩).x)).length :=
            (hpermx.filter _).length_eq
    · rw [hmx]
      calc ps.length - ps.length / 2
          = (sortByX ps).length - ps.length / 2 := by rw [hlenx]
        _ ≤ ((sortByX ps).filter fun p =>
              decide (((sortByX ps).get ⟨ps.length / 2, hkx⟩).x ≤ p.x)).length := hx2
        _ = (ps.filter fun p =>
              decide (((sortByX ps).get ⟨ps.length / 2, hkx⟩).x ≤ p.x)).length :=
            (hpermx.filter _).length_eq
  · norm_num [medianFocal, sortByX, sortByY, List.insertionSort, List.orderedInsert,
      leX, leY]
  · norm_num [medianFocal, sortByX, sortByY, List.insertionSort, List.orderedInsert,
      leX, leY]
  · norm_num

/-- Witness for C8 at the three positions of the spec's example. -/
theorem median_focal_point_witness :
    ((medianFocal [⟨0, 0⟩, ⟨10, 0⟩, ⟨20, 0⟩]).x ∈
      [(⟨0, 0⟩ : Point), ⟨10, 0⟩, ⟨20, 0⟩].map fun p => p.x) ∧
    ((medianFocal [⟨0, 0⟩, ⟨10, 0⟩, ⟨20, 0⟩]).y ∈
      [(⟨0, 0⟩ : Point), ⟨10, 0⟩, ⟨20, 0⟩].map fun p => p.y) ∧
    [(⟨0, 0⟩ : Point), ⟨10, 0⟩, ⟨20, 0⟩].length / 2 + 1 ≤
      ([(⟨0, 0⟩ : Point), ⟨10, 0⟩, ⟨20, 0⟩].filter fun p =>
        decide (p.x ≤ (medianFocal [⟨0, 0⟩, ⟨10, 0⟩, ⟨20, 0⟩]).x)).length ∧
    [(⟨0, 0⟩ : Point), ⟨10, 0⟩, ⟨20, 0⟩].length -
        [(⟨0, 0⟩ : Point), ⟨10, 0⟩, ⟨20, 0⟩].length / 2 ≤
      ([(⟨0, 0⟩ : Point), ⟨10, 0⟩, ⟨20, 0⟩].filter fun p =>
        decide ((medianFocal [⟨0, 0⟩, ⟨10, 0⟩, ⟨20, 0⟩]).x ≤ p.x)).length :=
  median_focal_point.1 [⟨0, 0⟩, ⟨10, 0⟩, ⟨20, 0⟩] (by simp)

/- ### The FIFO indexing queue (`updateVectorIndex`/`processQueue`,
queued revision) -/

/-- Observable events of the indexing queue: a snapshot arriving at
`updateVectorIndex` (pushed onto `items`), the drain loop shifting a
snapshot off the queue and starting its pass, embedding/index-mutation
work for the snapshot in flight, and the snapshot's `saveIndex` persist
completing.  Snapshots are identified by naturals. -/
inductive QEvent where
  | arrive (s : Nat)
  | begin (s : Nat)
  | work (s : Nat)
  | persist (s : Nat)
deriving DecidableEq, Repr

/-- State of the queue system: the pending queue
(`indexingQueue.current.items`), the `processing` flag, and the live
`processQueue` drain instances, each holding the snapshot it is
currently processing (if any).  The source touches `items` and
`processing` only in synchronous (await-free) sections, so those updates
are single atomic steps below, while awaits may interleave any other
step. -/
structure QState where
  queue : List Nat
  processing : Bool
  drains : List (Option Nat)
deriving DecidableEq, Repr

/-- Small-step transitions.  `arriveBusy`: push while a drain runs (the
early `return`).  `arriveIdle`: push, observe `processing === false`, set
it and spawn a drain — one synchronous block.  `beginSnap`: an idle drain
shifts the queue head.  `workStep`: embedding/index mutation for the
snapshot in flight.  `persistSnap`: its `saveIndex` completes.
`finish`: a drain with an empty queue clears `processing` and exits. -/
inductive QStep : QState → List QEvent → QState → Prop where
  | arriveBusy (st : QState) (s : Nat) (h : st.processing = true) :
      QStep st [QEvent.arrive s] { st with queue := st.queue ++ [s] }
  | arriveIdle (st : QState) (s : Nat) (h : st.processing = false) :
      QStep st [QEvent.arrive s]
        { queue := st.queue ++ [s], processing := true
          drains := st.drains ++ [none] }
  | beginSnap (st : QState) (i : Nat) (s : Nat) (rest : List Nat)
      (hd : st.drains.get? i = some none) (hq : st.queue = s :: rest) :
      QStep st [QEvent.begin s]
        { st with queue := rest, drains := st.drains.set i (some s) }
  | workStep (st : QState) (i : Nat) (s : Nat)
      (hd : st.drains.get? i = some (some s)) :
      QStep st [QEvent.work s] st
  | persistSnap (st : QState) (i : Nat) (s : Nat)
      (hd : st.drains.get? i = some (some s)) :
      QStep st [QEvent.persist s] { st with drains := st.drains.set i none }
  | finish (st : QState) (i : Nat) (hd : st.drains.get? i = some none)
      (hq : st.queue = []) :
      QStep st [] { st with processing := false, drains := st.drains.eraseIdx i }

/-- Reachability from the initial state (empty queue, flag down, no
drain), carrying the trace of emitted events. -/
inductive QReach : QState → List QEvent → Prop where
  | init : QReach ⟨[], false, []⟩ []
  | step (st : QState) (t : List QEvent) (evs : List QEvent) (st' : QState) :
      QReach st t → QStep st evs st' → QReach st' (t ++ evs)

/-- The snapshots that have arrived, in arrival order. -/
def arrivesOf (t : List QEvent) : List Nat :=
  t.filterMap fun e => match e with | QEvent.arrive s => some s | _ => none

/-- The snapshots whose processing has begun, in begin order. -/
def beginsOf (t : List QEvent) : List Nat :=
  t.filterMap fun e => match e with | QEvent.begin s => some s | _ => none

/-- The trace restricted to processing events (begin/work/persist). -/
def procEvents (t : List QEvent) : List QEvent :=
  t.filter fun e => match e with | QEvent.arrive _ => false | _ => true

/-- `SerialTo t cur`: the processing trace `t` is a sequence of complete
begin–work*–persist segments, each for a single snapshot, followed by at
most one open segment whose snapshot is `cur`; a new segment begins only
when no segment is open, and work/persist events belong only to the open
segment's snapshot. -/
inductive SerialTo : List QEvent → Option Nat → Prop where
  | nil : SerialTo [] none
  | beginSeg (t : List QEvent) (s : Nat) :
      SerialTo t none → SerialTo (t ++ [QEvent.begin s]) (some s)
  | workSeg (t : List QEvent) (s : Nat) :
      SerialTo t (some s) → SerialTo (t ++ [QEvent.work s]) (some s)
  | persistSeg (t : List QEvent) (s : Nat) :
      SerialTo t (some s) → SerialTo (t ++ [QEvent.persist s]) none

/-- The snapshot in flight at the (sole) drain, if any. -/
def drainVal (st : QState) : Option Nat :=
  match st.drains with
  | [] => none
  | d :: _ => d

/-- The inductive invariant of the queue system: the flag down means no
drain is alive, at most one drain is ever alive, the queue holds exactly
the arrivals that have not yet begun (in order), and the processing
trace is serialized with the open segment matching the drain. -/
def QInv (st : QState) (t : List QEvent) : Prop :=
  (st.processing = false → st.drains = []) ∧
  st.drains.length ≤ 1 ∧
  arrivesOf t = beginsOf t ++ st.queue ∧
  SerialTo (procEvents t) (drainVal st)

theorem get?_singleton_of_le_one {α : Type} (l : List α) (i : Nat) (d : α)
    (hlen : l.length ≤ 1) (hget : l.get? i = some d) : l = [d] ∧ i = 0 := by
  match l, i with
  | [], i => simp at hget
  | [a], 0 => simp at hget; simp [hget]
  | [a], j + 1 => simp at hget
  | a :: b :: r, i => simp at hlen

theorem qinv_step (st : QState) (t : List QEvent) (evs : List QEvent)
    (st' : QState) (hstep : QStep st evs st') (hinv : QInv st t) :
    QInv st' (t ++ evs) := by
  obtain ⟨hflag, hlen, hfifo, hserial⟩ := hinv
  cases hstep with
  | arriveBusy s h =>
    refine ⟨(fun hf => by rw [h] at hf; cases hf), hlen, ?_, ?_⟩
    · simp only [arrivesOf, beginsOf, List.filterMap_append] at *
      simp [hfifo]
    · simpa [procEvents, List.filter_append] using hserial
  | arriveIdle s h =>
    have hdr : st.drains = [] := hflag h
    refine ⟨(fun hf => by cases hf), by simp [hdr], ?_, ?_⟩
    · simp only [arrivesOf, beginsOf, List.filterMap_append] at *
      simp [hfifo]
    · simp only [procEvents, List.filter_append]
      simpa [drainVal, hdr] using hserial
  | beginSnap i s rest hd hq =>
    obtain ⟨hdr, hi⟩ := get?_singleton_of_le_one st.drains i none hlen hd
    subst hi
    have hproc : st.processing = true := by
      by_contra hf
      rw [Bool.not_eq_true] at hf
      rw [hflag hf] at hdr
      cases hdr
    refine ⟨(fun hf => by rw [hproc] at hf; cases hf), by simp [hdr], ?_, ?_⟩
    · simp only [arrivesOf, beginsOf, List.filterMap_append] at *
      simp only [hfifo, hq]
      simp
    · simp only [procEvents, List.filter_append]
      have hcur : drainVal st = none := by simp [drainVal, hdr]
      have hcur' :
          drainVal { st with
            queue := rest
            drains := st.drains.set 0 (some s) } = some s := by
        simp [drainVal, hdr]
      rw [hcur']
      exact SerialTo.beginSeg _ _ (by simpa [procEvents, hcur] using hserial)
  | workStep i s hd =>
    obtain ⟨hdr, hi⟩ := get?_singleton_of_le_one st.drains i (some s) hlen hd
    refine ⟨hflag, hlen, ?_, ?_⟩
    · simp only [arrivesOf, beginsOf, List.filterMap_append] at *
      simp [hfifo]
    · simp only [procEvents, List.filter_append]
      have hcur : drainVal st = some s := by simp [drainVal, hdr]
      rw [hcur]
      exact SerialTo.workSeg _ _ (by simpa [procEvents, hcur] using hserial)
  | persistSnap i s hd =>
    obtain ⟨hdr, hi⟩ := get?_singleton_of_le_one st.drains i (some s) hlen hd
    subst hi
    have hproc : st.processing = true := by
      by_contra hf
      rw [Bool.not_eq_true] at hf
      rw [hflag hf] at hdr
      cases hdr
    refine ⟨(fun hf => by rw [hproc] at hf; cases hf), by simp [hdr], ?_, ?_⟩
    · simp only [arrivesOf, beginsOf, List.filterMap_append] at *
      simp [hfifo]
    · simp only [procEvents, List.filter_append]
      have hcur : drainVal st = some s := by simp [drainVal, hdr]
      have hcur' : drainVal { st with drains := st.drains.set 0 none } = none := by
        simp [drainVal, hdr]
      rw [hcur']
      exact SerialTo.persistSeg _ _ (by simpa [procEvents, hcur] using hserial)
  | finish i hd hq =>
    obtain ⟨hdr, hi⟩ := get?_singleton_of_le_one st.drains i none hlen hd
    subst hi
    refine ⟨(fun _ => by simp [hdr]), by simp [hdr], ?_, ?_⟩
    · simpa using hfifo
    · have hcur : drainVal st = none := by simp [drainVal, hdr]
      have hcur' :
          drainVal { st with
            processing := false
            drains := st.drains.eraseIdx 0 } = none := by
        simp [drainVal, hdr]
      rw [hcur']
      simpa [hcur] using hserial

theorem qinv_reach (st : QState) (t : List QEvent) (h : QReach st t) :
    QInv st t := by
  induction h with
  | init =>
    exact ⟨fun _ => rfl, by simp, rfl, SerialTo.nil⟩
  | step st t evs st' _ hstep ih => exact qinv_step st t evs st' hstep ih

/-- **C4.** Under the queue discipline of the source (push, early return
when `processing` is set, a single drain loop that fully processes one
snapshot — shift, cluster/embed/mutate, persist — before re-checking the
queue), every reachable trace is FIFO-serialized: the snapshots begun so
far are exactly the earliest arrivals in arrival order (the queue holds
the rest), and the processing events form complete begin–work*–persist
segments, one snapshot at a time — no embedding or index-mutation work
for a later-queued snapshot begins before the earlier snapshot's persist
completes. -/
theorem indexing_fifo_serialized (st : QState) (t : List QEvent)
    (h : QReach st t) :
    arrivesOf t = beginsOf t ++ st.queue ∧ SerialTo (procEvents t) (drainVal st) :=
  ⟨(qinv_reach st t h).2.2.1, (qinv_reach st t h).2.2.2⟩

/-- Witness for C4: the concrete trace "snapshot 7 arrives, its pass
begins" reached from the initial state. -/
theorem indexing_fifo_serialized_witness :
    arrivesOf [QEvent.arrive 7, QEvent.begin 7] =
      beginsOf [QEvent.arrive 7, QEvent.begin 7] ++
        (⟨[], true, [some 7]⟩ : QState).queue ∧
    SerialTo (procEvents [QEvent.arrive 7, QEvent.begin 7])
      (drainVal ⟨[], true, [some 7]⟩) := by
  have h1 : QStep ⟨[], false, []⟩ [QEvent.arrive 7] ⟨[7], true, [none]⟩ :=
    QStep.arriveIdle ⟨[], false, []⟩ 7 rfl
  have h2 : QStep ⟨[7], true, [none]⟩ [QEvent.begin 7] ⟨[], true, [some 7]⟩ :=
    QStep.beginSnap ⟨[7], true, [none]⟩ 0 7 [] rfl rfl
  have hr : QReach ⟨[], true, [some 7]⟩ [QEvent.arrive 7, QEvent.begin 7] :=
    QReach.step _ _ _ _ (QReach.step _ _ _ _ QReach.init h1) h2
  exact indexing_fifo_serialized _ _ hr

end Arkeith
